import Mathlib

/-!
Shallow embedding of the `allocator` package's core algorithms
(geosensing/allocator): the distance-matrix provider
(`allocator/distances/`), the k-means clustering engine
(`allocator/core/algorithms.py`), and the TSP/tour layer
(`allocator/core/routing.py`, `allocator/api/route.py`).

Conventions of the embedding:
* numpy `float64` values are modelled as rationals (`ℚ`);
* a point is a `(longitude, latitude)` pair;
* external collaborators (the `utm` projection, the `haversine`
  library, the OSRM/Google HTTP transports, the numpy random number
  generator, the OR-Tools constraint solver) are parameters of the
  embedded functions, modelled at their call/response interface;
* Python exceptions are modelled with `Except String`; a function that
  can return Python `None` returns an `Option`.
-/

namespace Allocator

/-- A geographic point as stored in the arrays handed to the core:
a `(longitude, latitude)` pair of coordinates. -/
abbrev Point : Type := ℚ × ℚ

/-- A two-dimensional numpy array of costs, as a list of rows. -/
abbrev Mat : Type := List (List ℚ)

/-- Default point used to state `getD` element facts. -/
def dPt : Point := (0, 0)

/-- Number of columns of a matrix (length of its first row;
`0` for a matrix with no rows). -/
def cols (m : Mat) : Nat := (m.head?.map List.length).getD 0

/-- Embeds `np.concatenate((a, b), axis=1)`: glue two blocks of rows
side by side.  The OSRM/Google table services always answer one row
per requested source, so both blocks have the same row count here. -/
def hconcat (a b : Mat) : Mat := List.zipWith (· ++ ·) a b

/-- Embeds `np.array_split(xs, k)`: split `xs` into `k` contiguous chunks;
the first `len xs % k` chunks have size `len xs / k + 1` and the
remaining ones size `len xs / k`.  (Equivalently: the first chunk has
the ceiling size and the rest is split into `k - 1` chunks.) -/
def array_split (xs : List α) : Nat → List (List α)
  | 0 => []
  | k + 1 =>
      let size := if 0 < xs.length % (k + 1) then xs.length / (k + 1) + 1 else xs.length / (k + 1)
      xs.take size :: array_split (xs.drop size) k

/-- Embeds `math.ceil(n / m)` for positive integers, as used to compute the
number of chunks. -/
def ceilDiv (n m : Nat) : Nat := (n + m - 1) / m

/-- The inner (destination-chunk) loop of `osrm_distance_matrix`.
`req` models one OSRM table request (`requests.get` plus JSON
parsing); `none` models a non-success HTTP status, upon which the
source code logs the error and `break`s out of this loop.  The counter
models the `count` variable (incremented before each request). -/
def osrm_inner (req : List Point → List Point → Option Mat) (s : List Point) :
    List (List Point) → Option Mat → Nat → Option Mat × Nat
  | [], c, count => (c, count)
  | d :: ds, c, count =>
      match req s d with
      | none => (c, count + 1)
      | some arr =>
          let c' : Mat :=
            match c with
            | none => arr
            | some cm => hconcat cm arr
          osrm_inner req s ds (some c') (count + 1)

/-- The outer (source-chunk) loop of `osrm_distance_matrix`.
`np.concatenate((o, c), axis=0)` raises a `TypeError` when `c` is
`None` (inner loop broke before its first success) and a `ValueError`
when the column counts disagree; both are modelled as `.error`. -/
def osrm_outer (req : List Point → List Point → Option Mat)
    (ychunks : List (List Point)) :
    List (List Point) → Option Mat → Nat → Except String (Option Mat × Nat)
  | [], o, count => .ok (o, count)
  | s :: ss, o, count =>
      let r := osrm_inner req s ychunks none count
      match o, r.1 with
      | none, c => osrm_outer req ychunks ss c r.2
      | some _, none => .error "TypeError: np.concatenate with None"
      | some om, some cm =>
          if cols om = cols cm then osrm_outer req ychunks ss (some (om ++ cm)) r.2
          else .error "ValueError: np.concatenate dimension mismatch"

/-- Embeds `allocator.distances.external_apis.osrm_distance_matrix`: chunked
distance-matrix computation against the OSRM table service.  Returns
the final value of `o` (which is `None` when no chunk succeeded) plus
the number of requests issued.  A zero `chunksize` models the Python
`ZeroDivisionError` of `n / 0.0`; `np.array_split` with `0` sections
raises a `ValueError` (only reachable with an empty input). -/
def osrm_distance_matrix (req : List Point → List Point → Option Mat)
    (X : List Point) (Yopt : Option (List Point)) (chunksize : Nat) :
    Except String (Option Mat × Nat) :=
  let Y := Yopt.getD X
  if chunksize = 0 then .error "ZeroDivisionError"
  else
    let Xsplits := ceilDiv X.length chunksize
    let Ysplits := ceilDiv Y.length chunksize
    if Xsplits = 0 then .error "ValueError: number sections must be larger than 0"
    else if Ysplits = 0 then .error "ValueError: number sections must be larger than 0"
    else osrm_outer req (array_split Y Ysplits) (array_split X Xsplits) none 0

/-- The full cost matrix of a ground-truth cost function `g`:
entry `(i, j)` is `g Xᵢ Yⱼ`. -/
def fullMat (g : Point → Point → ℚ) (X Y : List Point) : Mat :=
  X.map (fun p => Y.map (g p))

/-- A stub transport (in the sense of the spec's chunking scenario):
every table request succeeds and answers the ground-truth matrix of
`g` for the requested chunk pair. -/
def stubReq (g : Point → Point → ℚ) (s d : List Point) : Option Mat :=
  some (fullMat g s d)

/-- The inner (destination-chunk) loop of `google_distance_matrix`.
`client` models one `gmaps.distance_matrix` call including the parsing
of its rows (`NOT_FOUND` pairs become the `-1` sentinel); `none`
models a raised exception, upon which the source code logs the error
and executes `return o` — the third component flags this early
return. -/
def google_inner (client : List Point → List Point → Option Mat) (s : List Point) :
    List (List Point) → Option Mat → Nat → Option Mat × Nat × Bool
  | [], c, count => (c, count, false)
  | d :: ds, c, count =>
      match client s d with
      | none => (c, count + 1, true)
      | some arr =>
          let c' : Mat :=
            match c with
            | none => arr
            | some cm => hconcat cm arr
          google_inner client s ds (some c') (count + 1)

/-- The outer (source-chunk) loop of `google_distance_matrix`.  When
the inner loop hits an exception the whole function returns the
accumulator `o` as it stands (a partial matrix, or `None`). -/
def google_outer (client : List Point → List Point → Option Mat)
    (ychunks : List (List Point)) :
    List (List Point) → Option Mat → Nat → Except String (Option Mat × Nat)
  | [], o, count => .ok (o, count)
  | s :: ss, o, count =>
      match google_inner client s ychunks none count with
      | (_, count', true) => .ok (o, count')
      | (c, count', false) =>
          match o, c with
          | none, c => google_outer client ychunks ss c count'
          | some _, none => .error "TypeError: np.concatenate with None"
          | some om, some cm =>
              if cols om = cols cm then google_outer client ychunks ss (some (om ++ cm)) count'
              else .error "ValueError: np.concatenate dimension mismatch"

/-- Embeds `allocator.distances.external_apis.google_distance_matrix`:
chunked distance-matrix computation against the Google Distance
Matrix API.  More than 100 total elements forces chunks of at most 10
origins/destinations; otherwise more than 25 origins (destinations)
forces chunks of at most 25. -/
def google_distance_matrix (client : List Point → List Point → Option Mat)
    (X : List Point) (Yopt : Option (List Point)) :
    Except String (Option Mat × Nat) :=
  let n_X := X.length
  let Y := Yopt.getD X
  let n_Y := Y.length
  let nXY := n_X * n_Y
  let Xsplits := if 100 < nXY then ceilDiv n_X 10
    else if 25 < n_X then ceilDiv n_X 25 else 1
  let Ysplits := if 100 < nXY then ceilDiv n_Y 10
    else if 25 < n_Y then ceilDiv n_Y 25 else 1
  google_outer client (array_split Y Ysplits) (array_split X Xsplits) none 0

/-- A numpy matrix together with its shape, so that zero-sized results
such as `np.array([]).reshape(0, m)` keep their column count. -/
structure NpMat where
  rows : Nat
  colCount : Nat
  data : Mat
deriving DecidableEq, Repr

/-- Embeds `allocator.distances.euclidean.pairwise_distances`:
`np.sqrt(((Y - X[:, np.newaxis]) ** 2).sum(axis=2))`.  `sqrtQ` models
`np.sqrt` on the rational value model.  When exactly one of the two
operands is an empty list, `np.array` of it has shape `(0,)`, which
does not broadcast against the shape of the other operand `(m, 2)` /
`(n, 1, 2)`; with both empty the subsequent `.sum(axis=2)` raises an
axis error.  Both failures are modelled as `.error`. -/
def pairwise_distances (sqrtQ : ℚ → ℚ) (X Y : List Point) : Except String Mat :=
  if X.isEmpty || Y.isEmpty then
    .error "ValueError: operands could not be broadcast together"
  else
    .ok (X.map (fun p => Y.map (fun q => sqrtQ ((q.1 - p.1) ^ 2 + (q.2 - p.2) ^ 2))))

/-- Embeds `allocator.distances.euclidean.euclidean_distance_matrix`.
`proj lat lon` models `latlon2xy` (the external `utm.from_latlon`
projection to planar coordinates). -/
def euclidean_distance_matrix (proj : ℚ → ℚ → Point) (sqrtQ : ℚ → ℚ)
    (points_from : List Point) (points_to : Option (List Point)) :
    Except String NpMat :=
  if points_from.length == 0 then
    .ok ⟨0, (points_to.map List.length).getD 0, []⟩
  else
    let utm_from := points_from.map (fun (lon, lat) => proj lat lon)
    let utm_to :=
      match points_to with
      | none => utm_from
      | some ps => ps.map (fun (lon, lat) => proj lat lon)
    (pairwise_distances sqrtQ utm_from utm_to).map
      (fun m => ⟨points_from.length, (points_to.getD points_from).length, m⟩)

/-- Embeds `allocator.distances.haversine.haversine_distance_matrix`.
`hav` models the external `haversine` library function on
`(lat, lon)` pairs (kilometres); the code multiplies by 1000. -/
def haversine_distance_matrix (hav : Point → Point → ℚ)
    (points_from : List Point) (points_to : Option (List Point)) : NpMat :=
  if points_from.length == 0 then
    ⟨0, (points_to.map List.length).getD 0, []⟩
  else
    let pts_to := points_to.getD points_from
    ⟨points_from.length, pts_to.length,
      points_from.map (fun (lon_from, lat_from) =>
        pts_to.map (fun (lon_to, lat_to) =>
          hav (lat_from, lon_from) (lat_to, lon_to) * 1000))⟩

/-- Shape-annotated view of a raw matrix returned by a remote API. -/
def toNpMat (m : Mat) : NpMat := ⟨m.length, cols m, m⟩

/-- Embeds `allocator.distances.factory.get_distance_matrix`: the single
entry point of the Distance Provider.  Empty `points_from` returns
`np.array([]).reshape(0, len(points_to))` before any metric dispatch.
The external collaborators (`proj`/`sqrtQ` for the planar metric,
`hav` for the great-circle metric, `osrmReq`/`gClient` for the remote
transports) are parameters; the result is `.ok none` when the remote
backend returned Python `None`. -/
def get_distance_matrix (proj : ℚ → ℚ → Point) (sqrtQ : ℚ → ℚ)
    (hav : Point → Point → ℚ)
    (osrmReq gClient : List Point → List Point → Option Mat)
    (points_from : List Point) (points_to : Option (List Point))
    (method : String) (osrm_max_table_size : Nat) (api_key : Option String) :
    Except String (Option NpMat) :=
  if points_from.length == 0 then
    .ok (some ⟨0, (points_to.map List.length).getD 0, []⟩)
  else if method == "euclidean" then
    (euclidean_distance_matrix proj sqrtQ points_from points_to).map some
  else if method == "haversine" then
    .ok (some (haversine_distance_matrix hav points_from points_to))
  else if method == "osrm" then
    (osrm_distance_matrix osrmReq points_from points_to osrm_max_table_size).map
      (fun r => r.1.map toNpMat)
  else if method == "google" then
    match api_key with
    | none => .error "Google method requires api_key parameter"
    | some key =>
        if key == "" then .error "Google method requires api_key parameter"
        else
          (google_distance_matrix gClient points_from points_to).map
            (fun r => r.1.map toNpMat)
  else .error ("Unknown distance method: " ++ method)

/-- Python slicing `xs[:k]` for an `int` bound `k`: a negative bound
drops the last `|k|` elements. -/
def pyTake (k : Int) (xs : List α) : List α :=
  if 0 ≤ k then xs.take k.toNat else xs.take (xs.length - (-k).toNat)

/-- Embeds `allocator.core.algorithms.initialize_centroids`.  The numpy
global random number generator is modelled at its interface: `gstate`
is the ambient global RNG state, `seedState s` models
`np.random.RandomState(s).get_state()` (the state `np.random` is reset
to when `random_state` is not `None`), and `shuffle st xs` models
`np.random.shuffle` on a copy of `xs` with the global RNG in state
`st` — a deterministic function of the state, which permutes `xs`. -/
def initialize_centroids (shuffle : Nat → List Point → List Point)
    (seedState : Nat → Nat) (gstate : Nat)
    (points : List Point) (k : Int) (random_state : Option Nat) : List Point :=
  let st :=
    match random_state with
    | some s => seedState s
    | none => gstate
  pyTake k (shuffle st points)

/-- Embeds `np.argmin` over one row: the index of the first occurrence of the
minimum value (the documented numpy tie rule).  The index is `0` for an
empty row (unused; the callers guard emptiness). -/
def argminIdx : List ℚ → Nat
  | [] => 0
  | [_] => 0
  | x :: y :: ys =>
      if x ≤ (y :: ys).getD (argminIdx (y :: ys)) 0 then 0 else argminIdx (y :: ys) + 1

/-- The assignment step `np.argmin(distances, axis=1)` of
`kmeans_cluster`, where `distances` is the cost matrix from every
point to every current centroid.  With at least one point and zero
centroids the reduction is over an empty axis and numpy raises
(`none`); with no points the result is the empty label array. -/
def assignLabels (cost : Point → Point → ℚ) (pts cents : List Point) :
    Option (List Nat) :=
  match cents, pts with
  | [], [] => some []
  | [], _ :: _ => none
  | _ :: _, _ => some (pts.map (fun p => argminIdx (cents.map (cost p))))

/-- Embeds `points[closest == k]`: the points whose label is `k`. -/
def assignedPoints (pts : List Point) (closest : List Nat) (k : Nat) : List Point :=
  (pts.zip closest).filterMap (fun pc => if pc.2 = k then some pc.1 else none)

/-- Embeds `.mean(axis=0)`: the coordinate-wise mean of a list of points
(`0 / 0` on the empty list, whose numpy counterpart is `NaN`; the
caller filters that case out via the `isnan` check). -/
def meanPoint (l : List Point) : Point :=
  ((l.map Prod.fst).sum / (l.length : ℚ), (l.map Prod.snd).sum / (l.length : ℚ))

/-- Embeds `allocator.core.algorithms.move_centroids`: each centroid moves to
the mean of its assigned points; a centroid with no assigned points
(whose numpy mean is `NaN`, caught by the `np.isnan(c).any()` check)
keeps its previous position. -/
def move_centroids (pts : List Point) (closest : List Nat) (cents : List Point) :
    List Point :=
  (List.range cents.length).map (fun k =>
    let assigned := assignedPoints pts closest k
    if assigned.isEmpty then cents.getD k dPt else meanPoint assigned)

/-- Embeds `np.allclose(old_centroids, centroids, rtol=1e-4)`: elementwise
`|a - b| ≤ atol + rtol * |b|` with the default `atol = 1e-8`. -/
def allclose (a b : List Point) : Bool :=
  (a.zip b).all (fun pq =>
    decide (|pq.1.1 - pq.2.1| ≤ 1 / 100000000 + 1 / 10000 * |pq.2.1|) &&
    decide (|pq.1.2 - pq.2.2| ≤ 1 / 100000000 + 1 / 10000 * |pq.2.2|))

/-- The dictionary returned by `kmeans_cluster`. -/
structure KmeansResult where
  labels : List Nat
  centroids : List Point
  iterations : Nat
  converged : Bool
deriving DecidableEq, Repr

/-- The `for i in range(max_iter)` loop of `kmeans_cluster`.
`done` counts completed iterations, `remaining` the iterations left,
and `lastLabels` carries the `labels` variable (still unbound before
the first iteration: exhausting a zero-iteration loop reaches the
final `return` with `labels` undefined, a `NameError`). -/
def kmeansLoop (cost : Point → Point → ℚ) (pts : List Point) :
    List Point → List Point → Nat → Nat → Option (List Nat) →
    Except String KmeansResult
  | _old, cents, done, 0, lastLabels =>
      match lastLabels with
      | none => .error "NameError: name labels is not defined"
      | some ls => .ok ⟨ls, cents, done, false⟩
  | old, cents, done, r + 1, _ =>
      match assignLabels cost pts cents with
      | none => .error "ValueError: attempt to get argmin of an empty sequence"
      | some labels =>
          let cents' := move_centroids pts labels cents
          if allclose old cents' then .ok ⟨labels, cents', done + 1, true⟩
          else kmeansLoop cost pts cents' cents' (done + 1) r (some labels)

/-- Embeds `allocator.core.algorithms.kmeans_cluster` on an already extracted
coordinate array.  `cost` is the pluggable metric behind
`get_distance_matrix(X, centroids, method=distance_method)`; the RNG
interface parameters are as in `initialize_centroids`. -/
def kmeans_cluster (shuffle : Nat → List Point → List Point)
    (seedState : Nat → Nat) (gstate : Nat) (cost : Point → Point → ℚ)
    (pts : List Point) (n_clusters : Int) (max_iter : Nat)
    (random_state : Option Nat) : Except String KmeansResult :=
  let centroids := initialize_centroids shuffle seedState gstate pts n_clusters random_state
  kmeansLoop cost pts centroids centroids 0 max_iter none

/-- Element access `distance_matrix[i, j]`. -/
def dmAt (dm : Mat) (i j : Nat) : ℚ := (dm.getD i []).getD j 0

/-- Embeds `min(unvisited, key=lambda x: distance_matrix[current, x])`:
the element of smallest key; on ties, the earliest one in iteration
order (the CPython `min` builtin keeps the first minimal element, and the
unvisited small-int set iterates in ascending order). -/
def minKey (dm : Mat) (cur : Nat) : List Nat → Nat
  | [] => 0
  | [x] => x
  | x :: y :: ys =>
      let r := minKey dm cur (y :: ys)
      if dmAt dm cur x ≤ dmAt dm cur r then x else r

/-- The `while unvisited:` loop of `_solve_tsp_nearest_neighbor`;
`fuel` is the number of unvisited points (each pass removes exactly
one).  When the set is exhausted the loop closes the tour back to
index 0. -/
def nnGo (dm : Mat) : Nat → Nat → ℚ → List Nat → List Nat → ℚ × List Nat
  | _, cur, total, route, [] => (total + dmAt dm cur 0, route ++ [0])
  | 0, _, total, route, _ :: _ => (total, route)
  | fuel + 1, cur, total, route, u :: us =>
      let nearest := minKey dm cur (u :: us)
      nnGo dm fuel nearest (total + dmAt dm cur nearest)
        (route ++ [nearest]) ((u :: us).erase nearest)

/-- Embeds `allocator.api.route._solve_tsp_nearest_neighbor`: greedy
nearest-neighbor TSP over a distance matrix, starting at index 0. -/
def solve_tsp_nearest_neighbor (dm : Mat) : ℚ × List Nat :=
  let n := dm.length
  if n == 0 then (0, [])
  else if n == 1 then (0, [0])
  else nnGo dm (n - 1) 0 0 [0] (List.range' 1 (n - 1))

/-- The spec's Tour data-model contract for `n` input points: length
`n + 1`, first and last entries equal, and positions `[0, n)` contain
each of the `n` indices exactly once. -/
def isClosedTour (n : Nat) (t : List Nat) : Prop :=
  t.length = n + 1 ∧ t.head? = t.getLast? ∧ (t.take n).Perm (List.range n)

/-- Embeds `allocator.core.routing.solve_tsp_ortools`.  The external
constraint solver is modelled at its interface: `solver dm` is
`routing.SolveWithParameters(...)`, returning `none` when no
assignment is found and otherwise the objective value together with
the node sequence extracted by the `while not routing.IsEnd` walk
(the final `IndexToNode` of the end index is the depot, node 0,
appended after the walk).  `provider` models
`get_distance_matrix(points, points, method=distance_method)`, which
can return `None`.  `float("inf")` is modelled as `⊤ : WithTop ℚ`. -/
def solve_tsp_ortools (provider : List Point → Option Mat)
    (solver : Mat → Option (ℚ × List Nat)) (points : List Point) :
    Except String (WithTop ℚ × List Nat) :=
  if points.length == 0 then .error "Cannot solve TSP with empty data"
  else if points.length == 1 then .ok (0, [0, 0])
  else
    match provider points with
    | none => .error "Could not calculate distance matrix"
    | some distances =>
        match solver distances with
        | none => .ok (⊤, [])
        | some (obj, walk) => .ok ((obj : WithTop ℚ), walk ++ [0])

/-- Embeds `allocator.api.route.tsp_osrm` on the extracted coordinates: a
single point short-circuits to route `[0]` with distance `0.0`;
otherwise the OSRM distance matrix feeds the nearest-neighbor
heuristic (`len(None)` raises when the matrix came back as `None`). -/
def tsp_osrm (req : List Point → List Point → Option Mat)
    (points : List Point) : Except String (ℚ × List Nat) :=
  if points.length == 0 then .error "Cannot solve TSP with empty data"
  else if points.length == 1 then .ok (0, [0])
  else
    match osrm_distance_matrix req points none 100 with
    | .error e => .error e
    | .ok (none, _) => .error "TypeError: object of type NoneType has no len()"
    | .ok (some dm, _) => .ok (solve_tsp_nearest_neighbor dm)

/-- Embeds `allocator.api.route.tsp_google` on the extracted coordinates:
same structure as `tsp_osrm`, over the Google distance matrix. -/
def tsp_google (client : List Point → List Point → Option Mat)
    (points : List Point) : Except String (ℚ × List Nat) :=
  if points.length == 0 then .error "Cannot solve TSP with empty data"
  else if points.length == 1 then .ok (0, [0])
  else
    match google_distance_matrix client points none with
    | .error e => .error e
    | .ok (none, _) => .error "TypeError: object of type NoneType has no len()"
    | .ok (some dm, _) => .ok (solve_tsp_nearest_neighbor dm)

/-! ## Theorems -/

/-- C7: centroid clustering is deterministic under a fixed seed: with
an identical non-`None` `random_state`, `kmeans_cluster` does not
depend on the ambient global RNG state (the only hidden input), so two
calls with identical inputs and identical seed produce identical
labels, centroids, iteration counts and convergence flags. -/
theorem kmeans_cluster_deterministic_under_seed
    (shuffle : Nat → List Point → List Point) (seedState : Nat → Nat)
    (gstate₁ gstate₂ : Nat) (cost : Point → Point → ℚ) (pts : List Point)
    (n_clusters : Int) (max_iter : Nat) (s : Nat) :
    kmeans_cluster shuffle seedState gstate₁ cost pts n_clusters max_iter (some s) =
      kmeans_cluster shuffle seedState gstate₂ cost pts n_clusters max_iter (some s) := rfl

/-- C10: when the OR-Tools constraint solver finds no assignment,
`solve_tsp_ortools` returns `total_cost = float("inf")` (modelled as
`⊤`) together with the empty tour `[]`, via a normal return rather
than an exception. -/
theorem solve_tsp_ortools_no_assignment
    (provider : List Point → Option Mat) (solver : Mat → Option (ℚ × List Nat))
    (points : List Point) (dm : Mat) (h2 : 2 ≤ points.length)
    (hp : provider points = some dm) (hs : solver dm = none) :
    solve_tsp_ortools provider solver points = .ok (⊤, []) := by
  have h0 : (points.length == 0) = false := by
    simp only [beq_iff_eq, beq_eq_false_iff_ne, ne_eq]
    omega
  have h1 : (points.length == 1) = false := by
    simp only [beq_iff_eq, beq_eq_false_iff_ne, ne_eq]
    omega
  simp only [solve_tsp_ortools, h0, h1, hp, hs, Bool.false_eq_true, if_false]

/-- Witness for `solve_tsp_ortools_no_assignment` at a concrete
two-point input with a solver that finds no assignment. -/
theorem solve_tsp_ortools_no_assignment_witness :
    solve_tsp_ortools (fun _ => some [[0, 1], [1, 0]]) (fun _ => none)
      [((0 : ℚ), (0 : ℚ)), (1, 1)] = .ok (⊤, []) :=
  solve_tsp_ortools_no_assignment (fun _ => some [[0, 1], [1, 0]]) (fun _ => none)
    [((0 : ℚ), (0 : ℚ)), (1, 1)] [[0, 1], [1, 0]] (by decide) rfl rfl

/-- C8 counterexample: `tsp_osrm` on a single point returns the route
`[0]` (with distance `0.0`, without issuing any request), not the
degenerate closed tour `[0, 0]` the claim states. -/
theorem tsp_osrm_single_point_route :
    tsp_osrm (fun _ _ => none) [((0 : ℚ), (0 : ℚ))] = .ok (0, [0]) ∧
      ([0] : List Nat) ≠ [0, 0] := ⟨rfl, by decide⟩

/-- C8 amended: on a single-point input, `solve_tsp_ortools` returns
tour `[0, 0]` with cost 0, while `tsp_osrm` and `tsp_google` return
route `[0]` with distance 0; none of the three invokes the external
solver or remote transport (the results do not depend on those
parameters). -/
theorem single_point_tour_solvers
    (provider : List Point → Option Mat) (solver : Mat → Option (ℚ × List Nat))
    (req client : List Point → List Point → Option Mat) (p : Point) :
    solve_tsp_ortools provider solver [p] = .ok (0, [0, 0]) ∧
    tsp_osrm req [p] = .ok (0, [0]) ∧
    tsp_google client [p] = .ok (0, [0]) := ⟨rfl, rfl, rfl⟩

/-- C4 counterexample: with a non-empty source and an empty
destination set, `get_distance_matrix` does not short-circuit to a
`[n, 0]` matrix: it invokes the euclidean metric, whose numpy
broadcast fails, so the call raises instead of returning a zero-sized
matrix. -/
theorem get_distance_matrix_empty_dest_invokes_metric :
    get_distance_matrix (fun a b => (a, b)) id (fun _ _ => 0) (fun _ _ => none)
      (fun _ _ => none) [((1 : ℚ), (2 : ℚ))] (some []) "euclidean" 100 none =
      .error "ValueError: operands could not be broadcast together" := rfl

/-- C4 amended: an empty *source* point set makes `get_distance_matrix`
return the zero-sized `[0, m]` matrix (`[0, 0]` when both sides are
empty) without error and without invoking any metric backend (the
result does not depend on the metric parameters); but an empty
*destination* with a non-empty source is not short-circuited — it is
passed to the metric, and the euclidean backend raises a numpy
broadcast error instead of returning `[n, 0]`. -/
theorem get_distance_matrix_empty_inputs :
    (∀ (proj : ℚ → ℚ → Point) (sqrtQ : ℚ → ℚ) (hav : Point → Point → ℚ)
        (osrmReq gClient : List Point → List Point → Option Mat)
        (points_to : Option (List Point)) (method : String) (sz : Nat)
        (key : Option String),
        get_distance_matrix proj sqrtQ hav osrmReq gClient [] points_to method sz key =
          .ok (some ⟨0, (points_to.map List.length).getD 0, []⟩)) ∧
    (∀ (proj : ℚ → ℚ → Point) (sqrtQ : ℚ → ℚ) (hav : Point → Point → ℚ)
        (osrmReq gClient : List Point → List Point → Option Mat)
        (p : Point) (ps : List Point) (sz : Nat) (key : Option String),
        get_distance_matrix proj sqrtQ hav osrmReq gClient (p :: ps) (some [])
          "euclidean" sz key =
          .error "ValueError: operands could not be broadcast together") :=
  ⟨fun _ _ _ _ _ _ _ _ _ => rfl, fun _ _ _ _ _ _ _ _ _ => rfl⟩

/-- C1 counterexample: a transport that answers the first destination
chunk but fails (non-success status) on the second.  The provider does
not abort: it breaks out of the chunk loop and returns the partial
`1 × 1` matrix assembled from the successful chunk (the full matrix
would be `1 × 2`), after issuing 2 requests. -/
theorem osrm_chunk_failure_partial_result :
    osrm_distance_matrix
      (fun _ d => if d = [((2 : ℚ), (0 : ℚ))] then none else some [[5]])
      [((0 : ℚ), (0 : ℚ))] (some [(1, 0), (2, 0)]) 1 = .ok (some [[5]], 2) := rfl

/-- C2 counterexample: on a single-point input the nearest-neighbor
solver returns the route `[0]` of length 1, not a tour of length
`|P| + 1 = 2`. -/
theorem nn_single_point_not_closed :
    solve_tsp_nearest_neighbor [[0]] = (0, [0]) ∧
      (([0] : List Nat).length = 1 + 1 → False) := ⟨rfl, by decide⟩

/-- C3 counterexample: `kmeans_cluster` with `n_clusters = 3` on two
points reports no caller error at all — `initialize_centroids`
silently truncates to the two available points and the assignment loop
runs to convergence (here the RNG interface is instantiated with the
identity permutation, one possible shuffle outcome). -/
theorem kmeans_oversized_k_no_error :
    kmeans_cluster (fun _ xs => xs) (fun s => s) 0
      (fun p q => (p.1 - q.1) * (p.1 - q.1) + (p.2 - q.2) * (p.2 - q.2))
      [((0 : ℚ), (0 : ℚ)), (4, 0)] 3 5 (some 1) =
      .ok ⟨[0, 1], [(0, 0), (4, 0)], 1, true⟩ := by
  have h1 : assignLabels (fun p q => (p.1 - q.1) * (p.1 - q.1) + (p.2 - q.2) * (p.2 - q.2))
      [((0 : ℚ), (0 : ℚ)), (4, 0)] [((0 : ℚ), (0 : ℚ)), (4, 0)] = some [0, 1] := by
    norm_num [assignLabels, argminIdx]
  have h2 : move_centroids [((0 : ℚ), (0 : ℚ)), (4, 0)] [0, 1]
      [((0 : ℚ), (0 : ℚ)), (4, 0)] = [(0, 0), (4, 0)] := by
    norm_num [move_centroids, assignedPoints, meanPoint, List.range_succ, dPt,
      List.zip_cons_cons, List.filterMap_cons, List.filterMap_nil]
  have h3 : allclose [((0 : ℚ), (0 : ℚ)), (4, 0)] [((0 : ℚ), (0 : ℚ)), (4, 0)] = true := by
    norm_num [allclose]
  show kmeansLoop _ [((0 : ℚ), (0 : ℚ)), (4, 0)] [((0 : ℚ), (0 : ℚ)), (4, 0)]
    [((0 : ℚ), (0 : ℚ)), (4, 0)] 0 5 none = _
  rw [show (5 : Nat) = 4 + 1 from rfl]
  simp only [kmeansLoop, h1, h2, h3, if_true]

/-- Characterization of `argminIdx` (the embedded `np.argmin` row
reduction): the returned index is in range, attains the minimum, and
every earlier index holds a strictly larger value. -/
theorem argminIdx_spec :
    ∀ xs : List ℚ, xs ≠ [] →
      argminIdx xs < xs.length ∧
      (∀ j, j < xs.length → xs.getD (argminIdx xs) 0 ≤ xs.getD j 0) ∧
      (∀ j, j < argminIdx xs → xs.getD (argminIdx xs) 0 < xs.getD j 0)
  | [], h => absurd rfl h
  | [x], _ => by
      refine ⟨by simp [argminIdx], ?_, ?_⟩
      · intro j hj
        simp only [List.length_singleton] at hj
        have hj0 : j = 0 := by omega
        subst hj0
        simp [argminIdx]
      · intro j hj
        simp only [argminIdx] at hj
        omega
  | x :: y :: ys, _ => by
      obtain ⟨ih1, ih2, ih3⟩ := argminIdx_spec (y :: ys) (by simp)
      have heq : argminIdx (x :: y :: ys) =
          if x ≤ (y :: ys).getD (argminIdx (y :: ys)) 0 then 0
          else argminIdx (y :: ys) + 1 := rfl
      by_cases hx : x ≤ (y :: ys).getD (argminIdx (y :: ys)) 0
      · rw [heq, if_pos hx]
        refine ⟨by simp, ?_, ?_⟩
        · intro j hj
          rw [List.getD_cons_zero]
          match j with
          | 0 => rw [List.getD_cons_zero]
          | j + 1 =>
              rw [List.getD_cons_succ]
              exact le_trans hx (ih2 j (by simpa using hj))
        · intro j hj
          omega
      · rw [heq, if_neg hx]
        have hlt : (y :: ys).getD (argminIdx (y :: ys)) 0 < x := lt_of_not_le hx
        refine ⟨?_, ?_, ?_⟩
        · simp only [List.length_cons] at ih1 ⊢
          omega
        · intro j hj
          rw [List.getD_cons_succ]
          match j with
          | 0 => rw [List.getD_cons_zero]; exact le_of_lt hlt
          | j + 1 =>
              rw [List.getD_cons_succ]
              exact ih2 j (by simpa using hj)
        · intro j hj
          rw [List.getD_cons_succ]
          match j with
          | 0 => rw [List.getD_cons_zero]; exact hlt
          | j + 1 =>
              rw [List.getD_cons_succ]
              exact ih3 j (by omega)

/-- C5: each point is assigned (via `np.argmin(distances, axis=1)`)
to a centroid index that is in range and has minimum cost among the
current centroids, and every centroid with a smaller index costs
strictly more — i.e., ties are broken towards the lowest centroid
index.  `assignLabels` is exactly the assignment step executed in
every iteration of the `kmeans_cluster` loop. -/
theorem kmeans_assignment_min_cost_first_index
    (cost : Point → Point → ℚ) (pts cents : List Point) (labels : List Nat)
    (i : Nat) (h : assignLabels cost pts cents = some labels)
    (hi : i < pts.length) :
    labels.getD i 0 < cents.length ∧
    (∀ j, j < cents.length →
      cost (pts.getD i dPt) (cents.getD (labels.getD i 0) dPt) ≤
        cost (pts.getD i dPt) (cents.getD j dPt)) ∧
    (∀ j, j < labels.getD i 0 →
      cost (pts.getD i dPt) (cents.getD (labels.getD i 0) dPt) <
        cost (pts.getD i dPt) (cents.getD j dPt)) := by
  match cents, h with
  | [], h =>
      match pts, hi with
      | p :: ps, _ => simp [assignLabels] at h
  | c :: cs, h =>
      simp only [assignLabels, Option.some.injEq] at h
      subst h
      have hip : pts.getD i dPt = pts[i] := List.getD_eq_getElem _ _ hi
      have hgl : ((pts.map (fun q => argminIdx ((c :: cs).map (cost q)))).getD i 0) =
          argminIdx ((c :: cs).map (cost (pts.getD i dPt))) := by
        rw [List.getD_eq_getElem _ _ (by simpa using hi), List.getElem_map, hip]
      rw [hgl]
      obtain ⟨h1, h2, h3⟩ :=
        argminIdx_spec ((c :: cs).map (cost (pts.getD i dPt))) (by simp)
      have hrl : ((c :: cs).map (cost (pts.getD i dPt))).length = (c :: cs).length :=
        List.length_map _ _
      have hval : ∀ j, (hj : j < (c :: cs).length) →
          ((c :: cs).map (cost (pts.getD i dPt))).getD j 0 =
            cost (pts.getD i dPt) ((c :: cs).getD j dPt) := by
        intro j hj
        rw [List.getD_eq_getElem _ _ (by simpa using hj), List.getElem_map,
          List.getD_eq_getElem _ _ hj]
      refine ⟨by omega, ?_, ?_⟩
      · intro j hj
        have hm := h2 j (by omega)
        rwa [hval _ (by omega), hval _ hj] at hm
      · intro j hj
        have hm := h3 j hj
        rwa [hval _ (by omega), hval _ (by omega)] at hm

/-- Witness for `kmeans_assignment_min_cost_first_index`: two
equidistant centroids (constant-zero metric); the point is assigned to
centroid 0, the lower index. -/
theorem kmeans_assignment_min_cost_first_index_witness :
    ([0] : List Nat).getD 0 0 < ([((1 : ℚ), (1 : ℚ)), (2, 2)] : List Point).length ∧
    (∀ j, j < ([((1 : ℚ), (1 : ℚ)), (2, 2)] : List Point).length →
      (fun (_ _ : Point) => (0 : ℚ)) (([((0 : ℚ), (0 : ℚ))] : List Point).getD 0 dPt)
          (([((1 : ℚ), (1 : ℚ)), (2, 2)] : List Point).getD (([0] : List Nat).getD 0 0) dPt) ≤
        (fun (_ _ : Point) => (0 : ℚ)) (([((0 : ℚ), (0 : ℚ))] : List Point).getD 0 dPt)
          (([((1 : ℚ), (1 : ℚ)), (2, 2)] : List Point).getD j dPt)) ∧
    (∀ j, j < ([0] : List Nat).getD 0 0 →
      (fun (_ _ : Point) => (0 : ℚ)) (([((0 : ℚ), (0 : ℚ))] : List Point).getD 0 dPt)
          (([((1 : ℚ), (1 : ℚ)), (2, 2)] : List Point).getD (([0] : List Nat).getD 0 0) dPt) <
        (fun (_ _ : Point) => (0 : ℚ)) (([((0 : ℚ), (0 : ℚ))] : List Point).getD 0 dPt)
          (([((1 : ℚ), (1 : ℚ)), (2, 2)] : List Point).getD j dPt)) :=
  kmeans_assignment_min_cost_first_index (fun _ _ => 0) [((0 : ℚ), (0 : ℚ))]
    [((1 : ℚ), (1 : ℚ)), (2, 2)] [0] 0 rfl (by decide)

/-- The number of centroids is preserved by `move_centroids`. -/
theorem move_centroids_length (pts : List Point) (closest : List Nat)
    (cents : List Point) :
    (move_centroids pts closest cents).length = cents.length := by
  simp [move_centroids]

/-- C6: during centroid recomputation, a centroid with zero assigned
points keeps its previous position (the `np.isnan` recovery), a
centroid with at least one assigned point moves to the coordinate-wise
mean of its assigned points, and the number of centroids is
preserved; no error is raised (the function is total). -/
theorem move_centroids_empty_cluster_policy (pts : List Point)
    (closest : List Nat) (cents : List Point) (k : Nat)
    (hk : k < cents.length) :
    (move_centroids pts closest cents).length = cents.length ∧
    (assignedPoints pts closest k = [] →
      (move_centroids pts closest cents).getD k dPt = cents.getD k dPt) ∧
    (assignedPoints pts closest k ≠ [] →
      (move_centroids pts closest cents).getD k dPt =
        meanPoint (assignedPoints pts closest k)) := by
  have hval : (move_centroids pts closest cents).getD k dPt =
      (if (assignedPoints pts closest k).isEmpty then cents.getD k dPt
       else meanPoint (assignedPoints pts closest k)) := by
    rw [move_centroids, List.getD_eq_getElem _ _ (by simpa using hk),
      List.getElem_map, List.getElem_range]
  refine ⟨move_centroids_length pts closest cents, ?_, ?_⟩
  · intro h
    rw [hval]
    simp [h]
  · intro h
    rw [hval]
    simp [List.isEmpty_iff, h]

/-- Witness for `move_centroids_empty_cluster_policy`: both points are
assigned to centroid 0, so centroid 1 has an empty cluster and keeps
its position while centroid 0 moves to the mean. -/
theorem move_centroids_empty_cluster_policy_witness :
    (move_centroids [((0 : ℚ), (0 : ℚ)), (2, 0)] [0, 0]
        [((0 : ℚ), (0 : ℚ)), (5, 5)]).length = 2 ∧
    (assignedPoints [((0 : ℚ), (0 : ℚ)), (2, 0)] [0, 0] 1 = [] →
      (move_centroids [((0 : ℚ), (0 : ℚ)), (2, 0)] [0, 0]
          [((0 : ℚ), (0 : ℚ)), (5, 5)]).getD 1 dPt =
        ([((0 : ℚ), (0 : ℚ)), (5, 5)] : List Point).getD 1 dPt) ∧
    (assignedPoints [((0 : ℚ), (0 : ℚ)), (2, 0)] [0, 0] 1 ≠ [] →
      (move_centroids [((0 : ℚ), (0 : ℚ)), (2, 0)] [0, 0]
          [((0 : ℚ), (0 : ℚ)), (5, 5)]).getD 1 dPt =
        meanPoint (assignedPoints [((0 : ℚ), (0 : ℚ)), (2, 0)] [0, 0] 1)) :=
  move_centroids_empty_cluster_policy [((0 : ℚ), (0 : ℚ)), (2, 0)] [0, 0]
    [((0 : ℚ), (0 : ℚ)), (5, 5)] 1 (by decide)

/-- The iteration loop of `kmeans_cluster` terminates normally with an
`ok` result (never an exception) as long as the centroid list is
non-empty and either at least one iteration remains or a previous
iteration already bound `labels`; the centroid count is preserved. -/
theorem kmeansLoop_ok (cost : Point → Point → ℚ) (pts : List Point) :
    ∀ (remaining : Nat) (old cents : List Point) (done : Nat)
      (ls : Option (List Nat)), cents ≠ [] → (ls ≠ none ∨ 1 ≤ remaining) →
      ∃ r, kmeansLoop cost pts old cents done remaining ls = .ok r ∧
        r.centroids.length = cents.length
  | 0, old, cents, done, ls, _, hor => by
      match ls, hor with
      | some l, _ =>
          exact ⟨⟨l, cents, done, false⟩, rfl, rfl⟩
      | none, hor =>
          rcases hor with h | h
          · exact absurd rfl h
          · omega
  | r + 1, old, cents, done, ls, hc, _ => by
      match cents, hc with
      | c :: cs, _ =>
          have hassign : assignLabels cost pts (c :: cs) =
              some (pts.map (fun p => argminIdx ((c :: cs).map (cost p)))) := rfl
          set labels := pts.map (fun p => argminIdx ((c :: cs).map (cost p))) with hlb
          have hstep : kmeansLoop cost pts old (c :: cs) done (r + 1) ls =
              (if allclose old (move_centroids pts labels (c :: cs)) then
                .ok ⟨labels, move_centroids pts labels (c :: cs), done + 1, true⟩
              else kmeansLoop cost pts (move_centroids pts labels (c :: cs))
                (move_centroids pts labels (c :: cs)) (done + 1) r (some labels)) := by
            rw [kmeansLoop, hassign]
          rw [hstep]
          have hml : (move_centroids pts labels (c :: cs)).length = (c :: cs).length :=
            move_centroids_length pts labels (c :: cs)
          by_cases hcv : allclose old (move_centroids pts labels (c :: cs))
          · rw [if_pos hcv]
            exact ⟨_, rfl, hml⟩
          · rw [if_neg hcv]
            have hne : move_centroids pts labels (c :: cs) ≠ [] := by
              intro hnil
              rw [hnil] at hml
              simp at hml
            obtain ⟨s, hs, hslen⟩ := kmeansLoop_ok cost pts r
              (move_centroids pts labels (c :: cs))
              (move_centroids pts labels (c :: cs)) (done + 1) (some labels)
              hne (.inl (by simp))
            exact ⟨s, hs, by rw [hslen, hml]⟩

/-- C3 amended: `kmeans_cluster` performs no validation of
`n_clusters`.  For `k ≥ |P| ≥ 1` (and at least one iteration) the call
does not report any error: `initialize_centroids` silently truncates
the shuffled point list, the clustering proceeds with `|P|` centroids,
and an `ok` result with `|P|` centroids is returned. -/
theorem kmeans_cluster_oversized_k_no_validation
    (shuffle : Nat → List Point → List Point) (seedState : Nat → Nat)
    (gstate : Nat) (cost : Point → Point → ℚ) (pts : List Point) (k : Int)
    (max_iter : Nat) (random_state : Option Nat)
    (hshuffle : ∀ st, (shuffle st pts).Perm pts)
    (hpts : pts ≠ []) (hk : (pts.length : Int) ≤ k) (hmi : 1 ≤ max_iter) :
    ∃ r, kmeans_cluster shuffle seedState gstate cost pts k max_iter
        random_state = .ok r ∧ r.centroids.length = pts.length := by
  have hinit : ∀ st : Nat, (pyTake k (shuffle st pts)).length = pts.length := by
    intro st
    have hsl : (shuffle st pts).length = pts.length := (hshuffle st).length_eq
    have hk0 : (0 : Int) ≤ k := le_trans (by positivity) hk
    have hkn : pts.length ≤ k.toNat := by omega
    rw [pyTake, if_pos hk0, List.take_of_length_le (by omega), hsl]
  have hlen : (initialize_centroids shuffle seedState gstate pts k
      random_state).length = pts.length := by
    rw [initialize_centroids.eq_def]
    exact hinit _
  have hne : initialize_centroids shuffle seedState gstate pts k
      random_state ≠ [] := by
    intro hnil
    rw [hnil] at hlen
    exact hpts (List.length_eq_zero.mp hlen.symm)
  obtain ⟨r, hr, hrlen⟩ := kmeansLoop_ok cost pts max_iter
    (initialize_centroids shuffle seedState gstate pts k random_state)
    (initialize_centroids shuffle seedState gstate pts k random_state)
    0 none hne (.inr hmi)
  exact ⟨r, hr, by rw [hrlen, hlen]⟩

/-- Witness for `kmeans_cluster_oversized_k_no_validation`: one point,
`n_clusters = 2`, identity permutation for the RNG interface. -/
theorem kmeans_cluster_oversized_k_no_validation_witness :
    ∃ r, kmeans_cluster (fun _ xs => xs) (fun s => s) 0 (fun _ _ => 0)
        [((0 : ℚ), (0 : ℚ))] 2 1 none = .ok r ∧
      r.centroids.length = ([((0 : ℚ), (0 : ℚ))] : List Point).length :=
  kmeans_cluster_oversized_k_no_validation (fun _ xs => xs) (fun s => s) 0
    (fun _ _ => 0) [((0 : ℚ), (0 : ℚ))] 2 1 none (fun _ => List.Perm.refl _)
    (by decide) (by decide) (by decide)

/-- Helper: `minKey` picks an element of the (non-empty) unvisited list. -/
theorem minKey_mem (dm : Mat) (cur : Nat) :
    ∀ us : List Nat, us ≠ [] → minKey dm cur us ∈ us
  | [], h => absurd rfl h
  | [x], _ => by simp [minKey]
  | x :: y :: ys, _ => by
      have ih := minKey_mem dm cur (y :: ys) (by simp)
      have heq : minKey dm cur (x :: y :: ys) =
          if dmAt dm cur x ≤ dmAt dm cur (minKey dm cur (y :: ys)) then x
          else minKey dm cur (y :: ys) := rfl
      rw [heq]
      by_cases hx : dmAt dm cur x ≤ dmAt dm cur (minKey dm cur (y :: ys))
      · rw [if_pos hx]
        exact List.mem_cons_self x (y :: ys)
      · rw [if_neg hx]
        exact List.mem_cons_of_mem x ih

/-- The greedy loop visits each unvisited point exactly once (in some
order) and then closes the tour with index 0. -/
theorem nnGo_perm (dm : Mat) :
    ∀ (fuel cur : Nat) (total : ℚ) (route us : List Nat),
      us.length = fuel →
      ∃ l, l.Perm us ∧ (nnGo dm fuel cur total route us).2 = route ++ l ++ [0]
  | fuel, cur, total, route, [], _ => ⟨[], .nil, by cases fuel <;> simp [nnGo]⟩
  | 0, cur, total, route, u :: us, h => by simp at h
  | fuel + 1, cur, total, route, u :: us, h => by
      have hmem : minKey dm cur (u :: us) ∈ u :: us :=
        minKey_mem dm cur (u :: us) (by simp)
      have herase : ((u :: us).erase (minKey dm cur (u :: us))).length = fuel := by
        rw [List.length_erase_of_mem hmem, List.length_cons]
        simp only [List.length_cons] at h
        omega
      obtain ⟨l, hperm, heq⟩ := nnGo_perm dm fuel (minKey dm cur (u :: us))
        (total + dmAt dm cur (minKey dm cur (u :: us)))
        (route ++ [minKey dm cur (u :: us)])
        ((u :: us).erase (minKey dm cur (u :: us))) herase
      refine ⟨minKey dm cur (u :: us) :: l, ?_, ?_⟩
      · exact (hperm.cons _).trans (List.perm_cons_erase hmem).symm
      · rw [nnGo, heq]
        simp

/-- The nearest-neighbor heuristic returns a valid closed tour for
every distance matrix with at least two rows. -/
theorem nn_tour_valid (dm : Mat) (h : 2 ≤ dm.length) :
    isClosedTour dm.length (solve_tsp_nearest_neighbor dm).2 := by
  have h0 : (dm.length == 0) = false := by
    simp only [beq_eq_false_iff_ne, ne_eq]
    omega
  have h1 : (dm.length == 1) = false := by
    simp only [beq_eq_false_iff_ne, ne_eq]
    omega
  have hrl : (List.range' 1 (dm.length - 1)).length = dm.length - 1 := by
    simp
  obtain ⟨l, hperm, heq⟩ := nnGo_perm dm (dm.length - 1) 0 0 [0]
    (List.range' 1 (dm.length - 1)) hrl
  have hstep : (solve_tsp_nearest_neighbor dm).2 =
      (nnGo dm (dm.length - 1) 0 0 [0] (List.range' 1 (dm.length - 1))).2 := by
    rw [solve_tsp_nearest_neighbor]
    rw [h0, h1]
    simp
  rw [hstep, heq]
  have hll : l.length = dm.length - 1 := by
    rw [hperm.length_eq, hrl]
  have hrange : List.range dm.length = 0 :: List.range' 1 (dm.length - 1) := by
    have hn : dm.length = (dm.length - 1) + 1 := by omega
    conv_lhs => rw [hn, List.range_eq_range', List.range'_succ]
  refine ⟨?_, ?_, ?_⟩
  · simp
    omega
  · have hhead : (([0] ++ l) ++ [0]).head? = some 0 := rfl
    have hlast : (([0] ++ l) ++ [0]).getLast? = some 0 := List.getLast?_concat _
    rw [hhead, hlast]
  · have htake : (([0] ++ l) ++ [0]).take dm.length = [0] ++ l := by
      apply List.take_left'
      simp
      omega
    rw [htake, hrange]
    exact (hperm.cons 0)

/-- C2 amended: the tour contract holds for the nearest-neighbor
heuristic on every input with at least two points (for a single point
it returns `[0]`, of length 1, not `[0, 0]`), and for
`solve_tsp_ortools`: a single point yields the degenerate tour
`[0, 0]` with cost 0 without consulting the solver, and whenever the
external solver returns a walk that visits each node once starting at
the depot, the extracted tour (the walk plus the closing depot) is a
valid closed tour. -/
theorem tour_solvers_closed_tours :
    (∀ dm : Mat, 2 ≤ dm.length →
      isClosedTour dm.length (solve_tsp_nearest_neighbor dm).2) ∧
    (∀ (provider : List Point → Option Mat)
        (solver : Mat → Option (ℚ × List Nat)) (p : Point),
      solve_tsp_ortools provider solver [p] = .ok (0, [0, 0]) ∧
        isClosedTour 1 [0, 0]) ∧
    (∀ (provider : List Point → Option Mat)
        (solver : Mat → Option (ℚ × List Nat)) (pts : List Point) (dm : Mat)
        (obj : ℚ) (walk : List Nat), 2 ≤ pts.length →
        provider pts = some dm → solver dm = some (obj, walk) →
        walk.Perm (List.range pts.length) → walk.head? = some 0 →
        solve_tsp_ortools provider solver pts =
          .ok ((obj : WithTop ℚ), walk ++ [0]) ∧
        isClosedTour pts.length (walk ++ [0])) := by
  refine ⟨nn_tour_valid, ?_, ?_⟩
  · intro provider solver p
    refine ⟨rfl, by decide, rfl, ?_⟩
    · decide
  · intro provider solver pts dm obj walk h2 hp hs hperm hhead
    have h0 : (pts.length == 0) = false := by
      simp only [beq_eq_false_iff_ne, ne_eq]
      omega
    have h1 : (pts.length == 1) = false := by
      simp only [beq_eq_false_iff_ne, ne_eq]
      omega
    have hwl : walk.length = pts.length := by
      rw [hperm.length_eq, List.length_range]
    constructor
    · rw [solve_tsp_ortools, h0, h1]
      simp [hp, hs]
    · refine ⟨by simp; omega, ?_, ?_⟩
      · have hhd : (walk ++ [0]).head? = some 0 := by
          match walk, hhead with
          | 0 :: ws, _ => rfl
        rw [hhd, List.getLast?_concat]
      · rw [List.take_left' hwl]
        exact hperm

/-- Witness for `tour_solvers_closed_tours` at concrete inputs: a
2×2 matrix for the heuristic, and a two-point instance whose solver
returns the walk `[0, 1]`. -/
theorem tour_solvers_closed_tours_witness :
    isClosedTour 2 (solve_tsp_nearest_neighbor [[0, 1], [1, 0]]).2 ∧
    solve_tsp_ortools (fun _ => some [[0, 1], [1, 0]])
        (fun _ => some (2, [0, 1])) [((0 : ℚ), (0 : ℚ)), (1, 1)] =
      .ok (((2 : ℚ) : WithTop ℚ), [0, 1] ++ [0]) ∧
    isClosedTour 2 ([0, 1] ++ [0]) := by
  refine ⟨?_, ?_, ?_⟩
  · exact tour_solvers_closed_tours.1 [[0, 1], [1, 0]] (by decide)
  · exact (tour_solvers_closed_tours.2.2 (fun _ => some [[0, 1], [1, 0]])
      (fun _ => some (2, [0, 1])) [((0 : ℚ), (0 : ℚ)), (1, 1)] [[0, 1], [1, 0]]
      2 [0, 1] (by decide) rfl rfl (by decide) rfl).1
  · exact (tour_solvers_closed_tours.2.2 (fun _ => some [[0, 1], [1, 0]])
      (fun _ => some (2, [0, 1])) [((0 : ℚ), (0 : ℚ)), (1, 1)] [[0, 1], [1, 0]]
      2 [0, 1] (by decide) rfl rfl (by decide) rfl).2

/-- Lemma: `np.array_split` into as many sections as elements yields
singleton chunks. -/
theorem array_split_self_len :
    ∀ xs : List α, array_split xs xs.length = xs.map (fun a => [a])
  | [] => rfl
  | a :: xs => by
      rw [List.length_cons, array_split]
      have hmod : (a :: xs).length % (xs.length + 1) = 0 := by
        rw [List.length_cons]
        exact Nat.mod_self _
      have hdiv : (a :: xs).length / (xs.length + 1) = 1 := by
        rw [List.length_cons]
        exact Nat.div_self (by omega)
      rw [hmod, hdiv]
      simp only [lt_irrefl, if_false]
      show (a :: xs).take 1 :: array_split ((a :: xs).drop 1) xs.length = _
      rw [show ((a :: xs).take 1 : List α) = [a] from rfl,
        show (a :: xs).drop 1 = xs from rfl]
      rw [array_split_self_len xs]
      rfl

/-- A transport that obeys the ground truth `g` on every chunk except
the singleton `[q]`, where the request fails. -/
def failAt (g : Point → Point → ℚ) (q : Point)
    (s d : List Point) : Option Mat :=
  if d = [q] then none else stubReq g s d

/-- Inner chunk loop against `failAt`: all singleton chunks before
`[q]` succeed and are glued column-wise; the failing chunk increments
the counter and breaks, leaving the partial row. -/
theorem osrm_inner_failAt (g : Point → Point → ℚ) (p q : Point) :
    ∀ (ys : List Point) (acc : List ℚ) (n : Nat), q ∉ ys →
      osrm_inner (failAt g q) [p] (ys.map (fun y => [y]) ++ [[q]])
        (some [acc]) n =
      (some [acc ++ ys.map (g p)], n + (ys.length + 1))
  | [], acc, n, _ => by
      simp only [List.map_nil, List.nil_append]
      rw [osrm_inner]
      simp [failAt]
  | y :: ys, acc, n, hq => by
      have hy : ([y] : List Point) ≠ [q] := by
        simp only [ne_eq, List.cons.injEq, and_true]
        intro hyq
        exact hq (by simp [hyq])
      simp only [List.map_cons, List.cons_append]
      rw [osrm_inner]
      simp only [failAt, if_neg hy, stubReq, fullMat, List.map_cons, List.map_nil]
      have ih := osrm_inner_failAt g p q ys (acc ++ [g p y]) (n + 1)
        (fun hmem => hq (List.mem_cons_of_mem y hmem))
      simp only [hconcat, List.zipWith_cons_cons, List.zipWith_nil_right] at ih ⊢
      rw [ih]
      simp only [List.append_assoc, List.singleton_append, List.map_cons,
        Prod.mk.injEq, List.length_cons]
      exact ⟨by trivial, by omega⟩

/-- Unfolding of `osrm_distance_matrix` to its chunk loops when no
argument-validation branch fires. -/
theorem osrm_distance_matrix_eq_outer
    (req : List Point → List Point → Option Mat) (X Y : List Point)
    (cs : Nat) (hcs : cs ≠ 0) (hX : ceilDiv X.length cs ≠ 0)
    (hY : ceilDiv Y.length cs ≠ 0) :
    osrm_distance_matrix req X (some Y) cs =
      osrm_outer req (array_split Y (ceilDiv Y.length cs))
        (array_split X (ceilDiv X.length cs)) none 0 := by
  rw [osrm_distance_matrix]
  simp only [Option.getD_some]
  rw [if_neg hcs, if_neg hX, if_neg hY]

/-- Helper: a failed chunk request does not abort
`osrm_distance_matrix`: the provider logs the failure, breaks out of
the destination-chunk loop, and returns normally with the matrix
assembled from the chunks that succeeded before the failure — a
partial matrix (here: with chunk size 1, one source and destinations
`ys ++ [q]` where the request for `[q]` fails, the call returns the
`1 × |ys|` matrix instead of the full `1 × (|ys| + 1)` one, after
`|ys| + 1` requests). -/
theorem osrm_failed_chunk_partial_result (g : Point → Point → ℚ)
    (p q : Point) (ys : List Point) (hys : ys ≠ []) (hq : q ∉ ys) :
    osrm_distance_matrix (failAt g q) [p] (some (ys ++ [q])) 1 =
      .ok (some [ys.map (g p)], ys.length + 1) := by
  match ys, hys with
  | y :: ys, _ =>
      have hylen : ((y :: ys) ++ [q]).length = ys.length + 2 := by
        simp
      have hceil1 : ∀ n : Nat, ceilDiv n 1 = n := by
        intro n
        simp [ceilDiv]
      rw [osrm_distance_matrix_eq_outer (failAt g q) [p] ((y :: ys) ++ [q]) 1
        (by omega) (by rw [hceil1]; simp) (by rw [hceil1, hylen]; omega)]
      rw [hceil1, hceil1, hylen]
      have hsplitY : array_split ((y :: ys) ++ [q]) (ys.length + 2) =
          ((y :: ys) ++ [q]).map (fun a => [a]) := by
        rw [← hylen]
        exact array_split_self_len _
      have hsplitX : array_split [p] [p].length = [[p]] := by
        rw [array_split_self_len [p]]
        rfl
      rw [hsplitY, hsplitX, osrm_outer]
      have hyq : y ≠ q := fun hyq => hq (by simp [hyq])
      have hinner : osrm_inner (failAt g q) [p]
          ([y] :: (ys.map (fun a => [a]) ++ [[q]])) none 0 =
          (some [(y :: ys).map (g p)], ys.length + 2) := by
        rw [osrm_inner]
        have hy1 : ([y] : List Point) ≠ [q] := by
          simp only [ne_eq, List.cons.injEq, and_true]
          exact hyq
        simp only [failAt, if_neg hy1, stubReq, fullMat, List.map_cons,
          List.map_nil, List.nil_append]
        have ih := osrm_inner_failAt g p q ys [g p y] 1
          (fun hmem => hq (List.mem_cons_of_mem y hmem))
        simp only [List.nil_append] at ih ⊢
        rw [ih]
        simp only [List.singleton_append, List.map_cons, Prod.mk.injEq]
        exact ⟨by trivial, by omega⟩
      simp only [List.map_append, List.map_cons, List.map_nil, List.cons_append]
      simp only [hinner]
      rw [osrm_outer]
      simp [List.length_cons, Except.ok.injEq, Prod.mk.injEq, List.map_cons]

/-- Helper: on a raised chunk request, `google_distance_matrix`
returns the row blocks accumulated from the source chunks completed
before the failure.  Scenario: 26 sources (two chunks of 13 under the
25-origin cap) and one destination; the client obeys the ground truth
`g` on the first source chunk and raises on the second, so the call
returns only the first 13-row block, after 2 requests, via a normal
return. -/
theorem google_failed_chunk_partial_result (g : Point → Point → ℚ)
    (xs₁ xs₂ : List Point) (y : Point) (h1 : xs₁.length = 13)
    (h2 : xs₂.length = 13) (hne : xs₁ ≠ xs₂) :
    google_distance_matrix
      (fun s d => if s = xs₂ then none else stubReq g s d)
      (xs₁ ++ xs₂) (some [y]) = .ok (some (fullMat g xs₁ [y]), 2) := by
  have hlen : (xs₁ ++ xs₂).length = 26 := by
    rw [List.length_append, h1, h2]
  have hsplitY : array_split [y] 1 = [[y]] := by
    simp [array_split]
  have hsplitX : array_split (xs₁ ++ xs₂) 2 = [xs₁, xs₂] := by
    rw [show (2 : Nat) = 1 + 1 from rfl, array_split, hlen]
    norm_num
    rw [← h1, List.take_left, List.drop_left]
    rw [show (1 : Nat) = 0 + 1 from rfl, array_split, h2]
    norm_num
    exact ⟨by omega, rfl⟩
  rw [google_distance_matrix]
  simp only [Option.getD_some, List.length_singleton]
  rw [hlen]
  norm_num [ceilDiv]
  rw [hsplitX, hsplitY]
  rw [google_outer.eq_2]
  have hin1 : google_inner (fun s d => if s = xs₂ then none else stubReq g s d)
      xs₁ [[y]] none 0 = (some (fullMat g xs₁ [y]), 1, false) := by
    rw [google_inner]
    simp only [if_neg hne, stubReq]
    rw [google_inner]
  rw [hin1]
  simp only
  rw [google_outer.eq_2]
  have hin2 : google_inner (fun s d => if s = xs₂ then none else stubReq g s d)
      xs₂ [[y]] none 1 = (none, 2, true) := by
    rw [google_inner]
    simp
  rw [hin2]

/-- C1 amended: a failed chunk request does not abort the Distance
Provider call and no partial-failure error is raised; a partial matrix
is returned instead.  `osrm_distance_matrix` breaks out of the
destination-chunk loop on a non-success status and returns the matrix
assembled from the chunks that succeeded before the failure;
`google_distance_matrix` returns on a raised request with the matrix
accumulated from the source chunks completed before the failing one.
Both legs are stated over transports that fail on exactly one
chunk. -/
theorem chunk_failure_partial_results :
    (∀ (g : Point → Point → ℚ) (p q : Point) (ys : List Point),
        ys ≠ [] → q ∉ ys →
        osrm_distance_matrix (failAt g q) [p] (some (ys ++ [q])) 1 =
          .ok (some [ys.map (g p)], ys.length + 1)) ∧
    (∀ (g : Point → Point → ℚ) (xs₁ xs₂ : List Point) (y : Point),
        xs₁.length = 13 → xs₂.length = 13 → xs₁ ≠ xs₂ →
        google_distance_matrix
          (fun s d => if s = xs₂ then none else stubReq g s d)
          (xs₁ ++ xs₂) (some [y]) = .ok (some (fullMat g xs₁ [y]), 2)) :=
  ⟨osrm_failed_chunk_partial_result, google_failed_chunk_partial_result⟩

/-- A 13-point source block for the google chunk-failure scenario. -/
def googleBlockA : List Point := List.replicate 13 ((0 : ℚ), (0 : ℚ))

/-- The second, failing 13-point source block for the google
chunk-failure scenario. -/
def googleBlockB : List Point := List.replicate 13 ((1 : ℚ), (1 : ℚ))

/-- Witness for `chunk_failure_partial_results`: for osrm, one good
destination and one failing destination; for google, a good first
source block and a failing second one. -/
theorem chunk_failure_partial_results_witness :
    osrm_distance_matrix (failAt (fun _ _ => 7) ((5 : ℚ), (5 : ℚ)))
      [((0 : ℚ), (0 : ℚ))] (some ([((1 : ℚ), (1 : ℚ))] ++ [((5 : ℚ), (5 : ℚ))])) 1 =
      .ok (some [[((1 : ℚ), (1 : ℚ))].map ((fun _ _ => (7 : ℚ)) ((0 : ℚ), (0 : ℚ)))],
        [((1 : ℚ), (1 : ℚ))].length + 1) ∧
    google_distance_matrix
      (fun s d => if s = googleBlockB then none else stubReq (fun _ _ => 7) s d)
      (googleBlockA ++ googleBlockB) (some [((2 : ℚ), (2 : ℚ))]) =
      .ok (some (fullMat (fun _ _ => 7) googleBlockA [((2 : ℚ), (2 : ℚ))]), 2) :=
  ⟨chunk_failure_partial_results.1 (fun _ _ => 7) ((0 : ℚ), (0 : ℚ))
      ((5 : ℚ), (5 : ℚ)) [((1 : ℚ), (1 : ℚ))] (by decide) (by decide),
    chunk_failure_partial_results.2 (fun _ _ => 7) googleBlockA googleBlockB
      ((2 : ℚ), (2 : ℚ)) (by decide) (by decide) (by decide)⟩

/-- Lemma: `np.array_split` always yields exactly `k` chunks. -/
theorem array_split_length :
    ∀ (k : Nat) (xs : List α), (array_split xs k).length = k
  | 0, _ => rfl
  | k + 1, xs => by
      rw [array_split, List.length_cons, array_split_length k]

/-- Concatenating the chunks of `np.array_split` restores the list
(for at least one section). -/
theorem array_split_flatten :
    ∀ (k : Nat) (xs : List α), (array_split xs (k + 1)).flatten = xs
  | 0, xs => by
      rw [array_split, array_split]
      have hdiv : xs.length / 1 = xs.length := Nat.div_one _
      have hmod : xs.length % 1 = 0 := Nat.mod_one _
      rw [hmod, hdiv]
      simp
  | k + 1, xs => by
      rw [array_split, List.flatten_cons, array_split_flatten (k := k)]
      exact List.take_append_drop _ xs

/-- When there are at least as many elements as sections, every chunk
of `np.array_split` is non-empty. -/
theorem array_split_ne_nil :
    ∀ (k : Nat) (xs : List α), k + 1 ≤ xs.length →
      ∀ c ∈ array_split xs (k + 1), c ≠ []
  | 0, xs, hk => by
      intro c hc
      rw [array_split] at hc
      simp only [Nat.zero_add, Nat.mod_one, lt_irrefl, if_false, Nat.div_one,
        List.take_length] at hc
      rw [show array_split (xs.drop xs.length) 0 = ([] : List (List α)) from rfl] at hc
      rcases List.mem_cons.mp hc with hfst | hrest
      · subst hfst
        intro hnil
        rw [hnil] at hk
        simp at hk
      · exact absurd hrest (List.not_mem_nil c)
  | k + 1, xs, hk => by
      intro c hc
      rw [array_split] at hc
      have hmod : xs.length = (k + 2) * (xs.length / (k + 2)) + xs.length % (k + 2) :=
        (Nat.div_add_mod _ _).symm
      have hrlt : xs.length % (k + 2) < k + 2 := Nat.mod_lt _ (by omega)
      have hq1 : 1 ≤ xs.length / (k + 2) := by
        rw [Nat.le_div_iff_mul_le (show 0 < k + 2 by omega)]
        omega
      have hQ : k + 1 ≤ (k + 1) * (xs.length / (k + 2)) :=
        Nat.le_mul_of_pos_right (k + 1) hq1
      have hPQ : (k + 2) * (xs.length / (k + 2)) =
          (k + 1) * (xs.length / (k + 2)) + xs.length / (k + 2) := by ring
      rcases List.mem_cons.mp hc with hfst | hrest
      · subst hfst
        intro hnil
        have htl : (xs.take (if 0 < xs.length % (k + 2) then xs.length / (k + 2) + 1
            else xs.length / (k + 2))).length = 0 := by
          rw [hnil]
          rfl
        rw [List.length_take] at htl
        rcases Nat.eq_zero_or_pos (xs.length % (k + 2)) with hr0 | hrpos
        · rw [if_neg (by omega)] at htl
          omega
        · rw [if_pos hrpos] at htl
          omega
      · have hdl : k + 1 ≤ (xs.drop (if 0 < xs.length % (k + 2)
            then xs.length / (k + 2) + 1 else xs.length / (k + 2))).length := by
          rw [List.length_drop]
          rcases Nat.eq_zero_or_pos (xs.length % (k + 2)) with hr0 | hrpos
          · rw [if_neg (by omega)]
            omega
          · rw [if_pos hrpos]
            omega
        exact array_split_ne_nil k _ hdl c hrest

/-- Column-wise gluing of two ground-truth blocks over the same
sources gives the ground-truth block over the concatenated
destinations. -/
theorem hconcat_fullMat (g : Point → Point → ℚ) :
    ∀ (s d₁ d₂ : List Point),
      hconcat (fullMat g s d₁) (fullMat g s d₂) = fullMat g s (d₁ ++ d₂)
  | [], _, _ => rfl
  | p :: s, d₁, d₂ => by
      simp only [fullMat, List.map_cons, hconcat, List.zipWith_cons_cons,
        ← List.map_append]
      have ih := hconcat_fullMat g s d₁ d₂
      simp only [fullMat, hconcat] at ih
      rw [ih]

/-- Row-wise gluing of ground-truth blocks over the same destinations
gives the block over the concatenated sources. -/
theorem fullMat_append (g : Point → Point → ℚ) (s₁ s₂ Y : List Point) :
    fullMat g s₁ Y ++ fullMat g s₂ Y = fullMat g (s₁ ++ s₂) Y :=
  (List.map_append _ s₁ s₂).symm

/-- Column count of a ground-truth block with at least one source. -/
theorem cols_fullMat (g : Point → Point → ℚ) (s Y : List Point)
    (hs : s ≠ []) : cols (fullMat g s Y) = Y.length := by
  match s, hs with
  | p :: s, _ => simp [cols, fullMat]

/-- Inner chunk loop against the always-successful stub transport,
starting from an accumulated block. -/
theorem osrm_inner_stub (g : Point → Point → ℚ) (s : List Point) :
    ∀ (dchunks : List (List Point)) (dAcc : List Point) (n : Nat),
      osrm_inner (stubReq g) s dchunks (some (fullMat g s dAcc)) n =
        (some (fullMat g s (dAcc ++ dchunks.flatten)), n + dchunks.length)
  | [], dAcc, n => by
      rw [osrm_inner]
      simp
  | d :: ds, dAcc, n => by
      rw [osrm_inner]
      simp only [stubReq]
      rw [hconcat_fullMat]
      rw [osrm_inner_stub g s ds (dAcc ++ d) (n + 1)]
      simp only [List.flatten_cons, List.append_assoc, List.length_cons,
        Prod.mk.injEq]
      exact ⟨by trivial, by omega⟩

/-- Inner chunk loop against the stub transport from the initial
`None` accumulator (at least one destination chunk). -/
theorem osrm_inner_stub_none (g : Point → Point → ℚ) (s : List Point)
    (d : List Point) (ds : List (List Point)) (n : Nat) :
    osrm_inner (stubReq g) s (d :: ds) none n =
      (some (fullMat g s ((d :: ds).flatten)), n + (ds.length + 1)) := by
  rw [osrm_inner]
  simp only [stubReq]
  rw [osrm_inner_stub g s ds d (n + 1)]
  simp only [List.flatten_cons, Prod.mk.injEq]
  exact ⟨by trivial, by omega⟩

/-- Outer chunk loop against the stub transport, starting from an
accumulated row block. -/
theorem osrm_outer_stub (g : Point → Point → ℚ)
    (ychunks : List (List Point)) (d : List Point) (ds : List (List Point))
    (hyc : ychunks = d :: ds) :
    ∀ (ss : List (List Point)) (xAcc : List Point) (n : Nat), xAcc ≠ [] →
      (∀ s ∈ ss, s ≠ []) →
      osrm_outer (stubReq g) ychunks ss
          (some (fullMat g xAcc ychunks.flatten)) n =
        .ok (some (fullMat g (xAcc ++ ss.flatten) ychunks.flatten),
          n + ss.length * ychunks.length)
  | [], xAcc, n, _, _ => by
      rw [osrm_outer]
      simp
  | s :: ss, xAcc, n, hxa, hne => by
      have hs : s ≠ [] := hne s (List.mem_cons_self s ss)
      have hinner : osrm_inner (stubReq g) s ychunks none n =
          (some (fullMat g s ychunks.flatten), n + ychunks.length) := by
        rw [hyc, osrm_inner_stub_none g s d ds n]
        simp only [List.length_cons]
      have h1 : (osrm_inner (stubReq g) s ychunks none n).1 =
          some (fullMat g s ychunks.flatten) := by rw [hinner]
      have h2 : (osrm_inner (stubReq g) s ychunks none n).2 =
          n + ychunks.length := by rw [hinner]
      rw [osrm_outer.eq_4 (stubReq g) ychunks n s ss
        (fullMat g xAcc ychunks.flatten) (fullMat g s ychunks.flatten) h1]
      rw [h2]
      rw [if_pos (by rw [cols_fullMat g xAcc _ hxa, cols_fullMat g s _ hs])]
      rw [fullMat_append]
      rw [osrm_outer_stub g ychunks d ds hyc ss (xAcc ++ s)
        (n + ychunks.length) (by simp [hs])
        (fun t ht => hne t (List.mem_cons_of_mem s ht))]
      simp only [List.flatten_cons, List.append_assoc, List.length_cons,
        Except.ok.injEq, Prod.mk.injEq]
      refine ⟨by trivial, ?_⟩
      ring


/-- Lemma: `math.ceil(n / m)` is at least one for a non-empty input. -/
theorem ceilDiv_pos (n cs : Nat) (hn : 0 < n) (hcs : 0 < cs) :
    1 ≤ ceilDiv n cs := by
  rw [ceilDiv, Nat.le_div_iff_mul_le hcs]
  omega

/-- Lemma: `math.ceil(n / m)` never exceeds `n` (for positive `n`, `m`), so
no chunk of `np.array_split` into that many sections is empty. -/
theorem ceilDiv_le (n cs : Nat) (hn : 0 < n) (hcs : 0 < cs) :
    ceilDiv n cs ≤ n := by
  rw [ceilDiv, Nat.div_le_iff_le_mul_add_pred hcs]
  have hmul : n ≤ cs * n := Nat.le_mul_of_pos_left n hcs
  omega

/-- Chunking correctness of `osrm_distance_matrix` over a stub
transport: for non-empty inputs and a positive maximum table size, the
provider issues exactly `⌈|X| / cs⌉ * ⌈|Y| / cs⌉` requests and the
matrix reassembled from the chunk responses is the ground-truth matrix
of the whole input. -/
theorem osrm_distance_matrix_stub_full (g : Point → Point → ℚ)
    (X Y : List Point) (cs : Nat) (hcs : 0 < cs) (hX : X ≠ []) (hY : Y ≠ []) :
    osrm_distance_matrix (stubReq g) X (some Y) cs =
      .ok (some (fullMat g X Y), ceilDiv X.length cs * ceilDiv Y.length cs) := by
  have hXl : 0 < X.length := List.length_pos.mpr hX
  have hYl : 0 < Y.length := List.length_pos.mpr hY
  have hXs1 : 1 ≤ ceilDiv X.length cs := ceilDiv_pos _ _ hXl hcs
  have hYs1 : 1 ≤ ceilDiv Y.length cs := ceilDiv_pos _ _ hYl hcs
  have hXsle : ceilDiv X.length cs ≤ X.length := ceilDiv_le _ _ hXl hcs
  have hYsle : ceilDiv Y.length cs ≤ Y.length := ceilDiv_le _ _ hYl hcs
  rw [osrm_distance_matrix_eq_outer (stubReq g) X Y cs (by omega) (by omega)
    (by omega)]
  obtain ⟨kX, hkX⟩ : ∃ k, ceilDiv X.length cs = k + 1 :=
    ⟨ceilDiv X.length cs - 1, by omega⟩
  obtain ⟨kY, hkY⟩ : ∃ k, ceilDiv Y.length cs = k + 1 :=
    ⟨ceilDiv Y.length cs - 1, by omega⟩
  set ychunks := array_split Y (ceilDiv Y.length cs) with hyc
  have hyflat : ychunks.flatten = Y := by
    rw [hyc, hkY]
    exact array_split_flatten kY Y
  have hylen : ychunks.length = ceilDiv Y.length cs := by
    rw [hyc]
    exact array_split_length _ _
  obtain ⟨d, ds, hydds⟩ : ∃ d ds, ychunks = d :: ds := by
    match hm : ychunks with
    | [] =>
        simp only [List.length_nil] at hylen
        omega
    | d :: ds => exact ⟨d, ds, rfl⟩
  set xchunks := array_split X (ceilDiv X.length cs) with hxc
  have hxflat : xchunks.flatten = X := by
    rw [hxc, hkX]
    exact array_split_flatten kX X
  have hxlen : xchunks.length = ceilDiv X.length cs := by
    rw [hxc]
    exact array_split_length _ _
  have hxne : ∀ c ∈ xchunks, c ≠ [] := by
    rw [hxc, hkX]
    exact array_split_ne_nil kX X (by omega)
  obtain ⟨x1, xs, hx1⟩ : ∃ x1 xs, xchunks = x1 :: xs := by
    match hm : xchunks with
    | [] =>
        simp only [List.length_nil] at hxlen
        omega
    | x1 :: xs => exact ⟨x1, xs, rfl⟩
  rw [hx1]
  rw [osrm_outer.eq_2]
  have hinner1 : osrm_inner (stubReq g) x1 ychunks none 0 =
      (some (fullMat g x1 ychunks.flatten), ychunks.length) := by
    rw [hydds, osrm_inner_stub_none g x1 d ds 0]
    simp
  have hp1 : (osrm_inner (stubReq g) x1 ychunks none 0).1 =
      some (fullMat g x1 ychunks.flatten) := by rw [hinner1]
  have hp2 : (osrm_inner (stubReq g) x1 ychunks none 0).2 =
      ychunks.length := by rw [hinner1]
  rw [hp1, hp2]
  rw [osrm_outer_stub g ychunks d ds hydds xs x1 ychunks.length
    (hxne x1 (by rw [hx1]; exact List.mem_cons_self _ _))
    (fun t ht => hxne t (by rw [hx1]; exact List.mem_cons_of_mem _ ht))]
  have hxflat1 : x1 ++ xs.flatten = X := by
    rw [← hxflat, hx1, List.flatten_cons]
  have hcount : ychunks.length + xs.length * ychunks.length =
      ceilDiv X.length cs * ceilDiv Y.length cs := by
    rw [← hxlen, ← hylen, hx1, List.length_cons]
    ring
  rw [hxflat1, hyflat, hcount]

/-- C9: with 30 sources, 3 destinations and a maximum table size of
10, `osrm_distance_matrix` issues exactly 3 chunk requests, and the
matrix reassembled by concatenating chunk columns then chunk rows in
original index order equals the matrix a single unchunked request over
the same (stub) transport would return. -/
theorem osrm_chunking_30_sources_3_dests (g : Point → Point → ℚ)
    (X Y : List Point) (hX : X.length = 30) (hY : Y.length = 3) :
    osrm_distance_matrix (stubReq g) X (some Y) 10 =
      .ok (stubReq g X Y, 3) := by
  have h := osrm_distance_matrix_stub_full g X Y 10 (by omega)
    (by intro h0; rw [h0] at hX; simp at hX)
    (by intro h0; rw [h0] at hY; simp at hY)
  rw [hX, hY] at h
  rw [show ceilDiv 30 10 = 3 from rfl, show ceilDiv 3 10 = 1 from rfl] at h
  simpa [stubReq] using h

/-- A concrete 30-point input for the chunking scenario. -/
def scenarioSources : List Point := (List.range 30).map (fun i => ((i : ℚ), (0 : ℚ)))

/-- A concrete 3-point input for the chunking scenario. -/
def scenarioDests : List Point := (List.range 3).map (fun i => ((i : ℚ), (1 : ℚ)))

/-- Witness for `osrm_chunking_30_sources_3_dests` at concrete
30- and 3-point inputs. -/
theorem osrm_chunking_30_sources_3_dests_witness :
    osrm_distance_matrix (stubReq (fun _ _ => 1)) scenarioSources
      (some scenarioDests) 10 =
      .ok (stubReq (fun _ _ => 1) scenarioSources scenarioDests, 3) :=
  osrm_chunking_30_sources_3_dests (fun _ _ => 1) scenarioSources scenarioDests
    (by decide) (by decide)

end Allocator
